import Mathlib

/-!
Verification of the type-registration and object-wrapping subsystem of
`v8pp` (`src/v8pp/class.hpp`), shallowly embedded in Lean.

C++ objects of class `detail::class_info` are linked by raw pointers
(`bases_` holds `class_info*`, `derivatives_` holds `class_info*`).  We
model the heap of `class_info` objects as an association list `World`
from node ids (standing for pointer values) to `class_info` records, and
pointer dereference as lookup in that list.  Native `void*` addresses are
modelled as integers; the per-edge pointer-adjustment functions
(`cast_function = void* (*)(void*)`) are arbitrary functions `Addr → Addr`.
The recursive member functions `class_info::cast` and
`class_info::find_object` recurse through the pointer graph, so the
embedding gives them an explicit fuel parameter; acyclicity hypotheses
(expressed by a rank function on node ids) make the fuel irrelevant.
-/

namespace v8pp

/-- Model of `void*` native object addresses. -/
abbrev Addr := Int

/-- Model of `class_info::type_index` (`unsigned`). -/
abbrev type_index := Nat

/-- Association-list lookup; models `std::unordered_map::find` and
dereference of a node id in the modelled heap. -/
def alookup {β : Type} (a : Nat) : List (Nat × β) → Option β
  | [] => none
  | (k, v) :: rest => if k = a then some v else alookup a rest

/-- Lookup for the object registry, keyed by native address. -/
def olookup {β : Type} (a : Addr) : List (Addr × β) → Option β
  | [] => none
  | (k, v) :: rest => if k = a then some v else olookup a rest

/-- Source `detail::class_info::base_class_info`: a direct base edge,
holding the base `class_info*` (a node id here) and the stored
pointer-adjustment function. -/
structure base_class_info where
  info : Nat
  cast : Addr → Addr

/-- Source `detail::class_info`: type index, ordered direct bases,
back-references to directly derived classes, and the object registry
`objects_ : unordered_map<void*, persistent<Object>>` (persistent proxy
handles are modelled by numeric proxy-object ids). -/
structure class_info where
  type_ : type_index
  bases_ : List base_class_info
  derivatives_ : List Nat
  objects_ : List (Addr × Nat)

/-- The modelled heap of `class_info` objects: node id to record. -/
abbrev World := List (Nat × class_info)

/-- Replace the record stored at node `id` (models in-place mutation of
the pointed-to `class_info`). -/
def updateW : World → Nat → class_info → World
  | [], _, _ => []
  | (k, v) :: rest, id, ci =>
    if k = id then (id, ci) :: updateW rest id ci
    else (k, v) :: updateW rest id ci

/-- The fast direct-base scan of `class_info::cast`: the first base (in
registration order) whose `info->type_` equals the requested type. -/
def directBase (w : World) (bs : List base_class_info) (t : type_index) :
    Option base_class_info :=
  bs.find? fun b =>
    match alookup b.info w with
    | some bi => bi.type_ == t
    | none => false

/-- The slow loop of `class_info::cast`: for each base in order, adjust
the pointer along the edge and recurse into the base (`castF` is the
recursive call at the next fuel level); stop at the first success. -/
def castWalk (castF : class_info → Addr → type_index → Bool × Addr)
    (w : World) : List base_class_info → Addr → type_index → Bool × Addr
  | [], ptr, _ => (false, ptr)
  | b :: rest, ptr, t =>
    match alookup b.info w with
    | none => castWalk castF w rest ptr t
    | some bi =>
      match castF bi (b.cast ptr) t with
      | (true, p) => (true, p)
      | (false, _) => castWalk castF w rest ptr t

/-- Source `class_info::cast(void*& ptr, type_index type)`.  The C++
in/out pointer argument is modelled by returning the pair
(success flag, pointer value after the call). -/
def class_info.cast (w : World) : Nat → class_info → Addr → type_index → Bool × Addr
  | 0, _, ptr, _ => (false, ptr)
  | fuel + 1, ci, ptr, t =>
    if ci.type_ = t then (true, ptr)
    else
      match directBase w ci.bases_ t with
      | some b => (true, b.cast ptr)
      | none => castWalk (class_info.cast w fuel) w ci.bases_ ptr t

/-- Source `class_info::add_base(class_info* info, cast_function cast)`:
reject a duplicate direct base (assert + `throw runtime_error`), else
append the base edge and record the back-reference in the target's
`derivatives_`.  The second component is the thrown error, `none` on
success; on error the returned world is the unchanged input (the C++
throw happens before any mutation). -/
def class_info.add_base (w : World) (selfId targetId : Nat)
    (castf : Addr → Addr) : World × Option String :=
  match alookup selfId w with
  | none => (w, some "no class")
  | some ci =>
    if ci.bases_.any (fun b => b.info == targetId) then
      (w, some "duplicated base class")
    else
      let w1 := updateW w selfId
        { ci with bases_ := ci.bases_ ++ [⟨targetId, castf⟩] }
      match alookup targetId w1 with
      | none => (w1, some "no class")
      | some ti =>
        (updateW w1 targetId
          { ti with derivatives_ := ti.derivatives_ ++ [selfId] }, none)

/-- Source `class_info::add_object`: asserts the address is not yet
registered (`assert(objects_.find(object) == objects_.end())`), then
inserts.  The assertion failure is modelled as the returned error; the
registry is unchanged in that case. -/
def class_info.add_object (ci : class_info) (addr : Addr) (hnd : Nat) :
    class_info × Option String :=
  match olookup addr ci.objects_ with
  | some _ => (ci, some "duplicate object")
  | none => ({ ci with objects_ := ci.objects_ ++ [(addr, hnd)] }, none)

/-- Source `class_info::remove_object`: asserts the address is present;
if present, resets the persistent handle, invokes the destroy callback
(both effects outside the modelled state) and erases the entry. -/
def class_info.remove_object (ci : class_info) (addr : Addr) :
    class_info × Option String :=
  match olookup addr ci.objects_ with
  | some _ =>
    ({ ci with objects_ := ci.objects_.eraseP (fun e => e.1 == addr) }, none)
  | none => (ci, some "no object")

/-- The derivative loop of `class_info::find_object`: query each
registered derivative in order, stopping at the first non-empty
result. -/
def findDeriv (findF : Nat → Option Nat) : List Nat → Option Nat
  | [] => none
  | d :: rest =>
    match findF d with
    | some hnd => some hnd
    | none => findDeriv findF rest

/-- Source `class_info::find_object(isolate, object)`: exact lookup in
this registry's map, else the depth-first search over the registries of
all registered derivatives.  `none` models the empty `Local<Object>`. -/
def class_info.find_object (w : World) : Nat → class_info → Addr → Option Nat
  | 0, _, _ => none
  | fuel + 1, ci, addr =>
    match olookup addr ci.objects_ with
    | some hnd => some hnd
    | none =>
      findDeriv (fun d =>
        match alookup d w with
        | some di => class_info.find_object w fuel di addr
        | none => none) ci.derivatives_

/-- Reachability of a requested type index from a node by following
`base_class_info` edges (zero or more hops). -/
inductive Reach (w : World) : Nat → type_index → Prop
  | self {id : Nat} {ci : class_info} :
      alookup id w = some ci → Reach w id ci.type_
  | step {id : Nat} {ci : class_info} {b : base_class_info} {t : type_index} :
      alookup id w = some ci → b ∈ ci.bases_ →
      Reach w b.info t → Reach w id t

/-- A cast path: `PathTo w id t p r` says that starting at node `id`
with address `p`, following some chain of `base_class_info` edges to a
node of type index `t` and applying each edge's adjustment function once
per hop yields the address `r`. -/
inductive PathTo (w : World) : Nat → type_index → Addr → Addr → Prop
  | refl {id : Nat} {ci : class_info} {p : Addr} :
      alookup id w = some ci → PathTo w id ci.type_ p p
  | step {id : Nat} {ci : class_info} {b : base_class_info}
      {t : type_index} {p r : Addr} :
      alookup id w = some ci → b ∈ ci.bases_ →
      PathTo w b.info t (b.cast p) r → PathTo w id t p r

/-- Acyclicity certificate for the inheritance graph: a rank function on
node ids that strictly decreases along every base edge. -/
def RankOK (w : World) (rank : Nat → Nat) : Prop :=
  ∀ e ∈ w, ∀ b ∈ e.2.bases_, rank b.info < rank e.1

/-- Model of a V8 value as consumed by `unwrap_object`.  An object
carries an identity `oid` (modelling V8 object identity, so that "the
same proxy" is expressible), its internal field count, the two internal
slots (slot 0: wrapped native address; slot 1: `class_info*`, `none`
modelling a null pointer), and its prototype. -/
inductive JSValue where
  | nonObject : JSValue
  | object (oid : Nat) (fieldCount : Nat) (slot0 : Addr)
      (slot1 : Option Nat) (proto : JSValue) : JSValue

/-- Source `class_singleton::wrap_external_object(T* wrap)`: create an
instance of the class function template (2 internal fields), store the
native address in slot 0 and the `class_singleton` pointer (node id
`selfId`) in slot 1, then register `(wrap, handle)` via
`class_info::add_object`.  `proxyId` models the fresh V8 object identity
allocated by `NewInstance`.  Returns ((world after, created JS object,
handle id), error from the registration assert). -/
def class_singleton.wrap_external_object (w : World) (selfId : Nat)
    (wrap : Addr) (proxyId : Nat) : (World × JSValue × Nat) × Option String :=
  match alookup selfId w with
  | none => ((w, JSValue.nonObject, proxyId), some "no class")
  | some ci =>
    let obj := JSValue.object proxyId 2 wrap (some selfId) JSValue.nonObject
    let r := class_info.add_object ci wrap proxyId
    ((updateW w selfId r.1, obj, proxyId), r.2)

/-- Source `class_singleton::wrap_object(T* wrap)`: wraps via
`wrap_external_object` and additionally makes the persistent handle weak
with a GC finalizer calling `destroy_object`; the finalizer registration
is a host-engine effect outside of the modelled state. -/
def class_singleton.wrap_object (w : World) (selfId : Nat) (wrap : Addr)
    (proxyId : Nat) : (World × JSValue × Nat) × Option String :=
  class_singleton.wrap_external_object w selfId wrap proxyId

/-- Source `class_singleton::unwrap_object(Local<Value> value)`: walk
the prototype chain while the value is an object; for an object with
exactly 2 internal fields, read slot 0 (the address) and slot 1 (the
`class_info*`); if the info pointer is non-null and its cast table can
cast the address to this type's index (`myType`), return the adjusted
address; otherwise continue with the prototype; return `none` (nullptr)
when the chain is exhausted. -/
def class_singleton.unwrap_object (w : World) (fuel : Nat)
    (myType : type_index) : JSValue → Option Addr
  | JSValue.nonObject => none
  | JSValue.object _ fc s0 s1 proto =>
    if fc = 2 then
      match s1 with
      | some infoId =>
        match alookup infoId w with
        | some info =>
          let r := class_info.cast w fuel info s0 myType
          if r.1 then some r.2
          else class_singleton.unwrap_object w fuel myType proto
        | none => class_singleton.unwrap_object w fuel myType proto
      | none => class_singleton.unwrap_object w fuel myType proto
    else class_singleton.unwrap_object w fuel myType proto

/-- Instrumented version of `unwrap_object` that additionally returns
the trace of objects whose internal fields are read
(`GetAlignedPointerFromInternalField`), recorded as (object identity,
field count) in read order.  Reads occur exactly where the source reads
slots 0 and 1. -/
def class_singleton.unwrap_objectR (w : World) (fuel : Nat)
    (myType : type_index) : JSValue → Option Addr × List (Nat × Nat)
  | JSValue.nonObject => (none, [])
  | JSValue.object oid fc s0 s1 proto =>
    if fc = 2 then
      match s1 with
      | some infoId =>
        match alookup infoId w with
        | some info =>
          let r := class_info.cast w fuel info s0 myType
          if r.1 then (some r.2, [(oid, fc)])
          else
            let q := class_singleton.unwrap_objectR w fuel myType proto
            (q.1, (oid, fc) :: q.2)
        | none =>
          let q := class_singleton.unwrap_objectR w fuel myType proto
          (q.1, (oid, fc) :: q.2)
      | none =>
        let q := class_singleton.unwrap_objectR w fuel myType proto
        (q.1, (oid, fc) :: q.2)
    else class_singleton.unwrap_objectR w fuel myType proto

/-- Specification predicate: the value's prototype chain contains an
object with exactly 2 internal fields whose stored descriptor is
non-null and can cast the stored address to `myType`. -/
def hasCastable (w : World) (fuel : Nat) (myType : type_index) :
    JSValue → Bool
  | JSValue.nonObject => false
  | JSValue.object _ fc s0 s1 proto =>
    ((fc == 2) &&
      (match s1 with
       | some infoId =>
         match alookup infoId w with
         | some info => (class_info.cast w fuel info s0 myType).1
         | none => false
       | none => false)) || hasCastable w fuel myType proto

/-- Source `class_singleton::wrap_object(FunctionCallbackInfo const&)`:
`ctor_ ? wrap_object(ctor_(args)) : throw runtime_error("create is not
allowed")`.  The constructor trampoline `ctor_` (a `std::function`,
null when no `ctor<...>()` was installed) is modelled as an optional
function from marshalled arguments to the created native address. -/
def class_singleton.wrap_object_call (w : World) (selfId : Nat)
    (ctor_ : Option (List Int → Addr)) (args : List Int) (proxyId : Nat) :
    (World × JSValue × Nat) × Option String :=
  match ctor_ with
  | some f => class_singleton.wrap_object w selfId (f args) proxyId
  | none => ((w, JSValue.nonObject, proxyId), some "create is not allowed")

/-- Outcome of the V8 function callback: a normal return value, or a
script-catchable exception set via `throw_ex` on the return value. -/
inductive CallbackOutcome where
  | value : JSValue → CallbackOutcome
  | scriptException : String → CallbackOutcome

/-- The instantiation callback installed on the script-constructible
function template in the `class_singleton` constructor: it calls
`wrap_object(args)` inside a try block and converts any thrown
`std::exception` into a V8 exception via `throw_ex`, so the error never
escapes the script-call boundary. -/
def js_construct_callback (w : World) (selfId : Nat)
    (ctor_ : Option (List Int → Addr)) (args : List Int) (proxyId : Nat) :
    World × CallbackOutcome :=
  match class_singleton.wrap_object_call w selfId ctor_ args proxyId with
  | (r, none) => (r.1, CallbackOutcome.value r.2.1)
  | (_, some msg) => (w, CallbackOutcome.scriptException msg)

/-- What the Descriptor Directory stores for one slot: the native type a
`class_singleton` was constructed for, and its type index.  `forType`
records the template parameter `T` of the `class_singleton<T>` that was
actually allocated at this directory position. -/
structure singleton_rec where
  forType : Nat
  type_ : type_index
  deriving DecidableEq, Repr

/-- Process-wide state for `class_singleton::instance`: the static
counter of `class_info::register_class`, the per-type static `my_type`
indices of `class_singleton<T>::class_type` (keyed by native type,
modelled as a numeric name), and the per-isolate singleton directories
stored in isolate data slots. -/
structure ProcState where
  next_index : Nat
  assigned : List (Nat × type_index)
  isolates : List (Nat × List singleton_rec)

/-- Source `class_singleton<T>::class_type`: a static local initialized
on first call from `class_info::register_class` (`next_index++`),
reused on every later call for the same `T`. -/
def class_type (s : ProcState) (T : Nat) : ProcState × type_index :=
  match alookup T s.assigned with
  | some i => (s, i)
  | none =>
    ({ s with
        next_index := s.next_index + 1
        assigned := s.assigned ++ [(T, s.next_index)] }, s.next_index)

/-- Store a (possibly new) directory for an isolate (models
`isolate->SetData` / in-place mutation of the stored vector). -/
def setIso (l : List (Nat × List singleton_rec)) (iso : Nat)
    (dir : List singleton_rec) : List (Nat × List singleton_rec) :=
  if (alookup iso l).isSome then
    l.map fun e => if e.1 = iso then (iso, dir) else e
  else l ++ [(iso, dir)]

/-- Source `class_singleton::instance(Isolate*)`: fetch the isolate's
singleton vector (creating and storing an empty one on first use); if
`my_type < singletons->size()`, return the stored entry at position
`my_type` (cast to `class_singleton<T>*`); otherwise construct a new
singleton and `emplace_back` it. -/
def singleton_instance (s : ProcState) (iso : Nat) (T : Nat) :
    ProcState × singleton_rec :=
  let p := class_type s T
  let s1 := p.1
  let my := p.2
  let dir := (alookup iso s1.isolates).getD []
  if h : my < dir.length then
    (s1, dir.get ⟨my, h⟩)
  else
    let r : singleton_rec := ⟨T, my⟩
    ({ s1 with isolates := setIso s1.isolates iso (dir ++ [r]) }, r)

/-! ## Helper lemmas about lookups and updates -/

theorem alookup_mem {β : Type} {l : List (Nat × β)} {a : Nat} {b : β}
    (h : alookup a l = some b) : (a, b) ∈ l := by
  induction l with
  | nil => simp [alookup] at h
  | cons e rest ih =>
    obtain ⟨k, v⟩ := e
    rw [alookup] at h
    by_cases hk : k = a
    · simp [hk] at h
      subst hk h
      exact List.mem_cons_self _ _
    · simp [hk] at h
      exact List.mem_cons_of_mem _ (ih h)

theorem alookup_updateW_self {w : World} {i : Nat} {c₀ c : class_info}
    (h : alookup i w = some c₀) :
    alookup i (updateW w i c) = some c := by
  induction w with
  | nil => simp [alookup] at h
  | cons e rest ih =>
    obtain ⟨k, v⟩ := e
    rw [alookup] at h
    by_cases hk : k = i
    · subst hk
      rw [updateW, if_pos rfl, alookup, if_pos rfl]
    · rw [if_neg hk] at h
      rw [updateW, if_neg hk, alookup, if_neg hk]
      exact ih h

theorem alookup_updateW_ne {w : World} {i j : Nat} {c : class_info}
    (h : j ≠ i) : alookup j (updateW w i c) = alookup j w := by
  induction w with
  | nil => rfl
  | cons e rest ih =>
    obtain ⟨k, v⟩ := e
    rw [updateW]
    by_cases hk : k = i
    · rw [if_pos hk, alookup, if_neg (fun hij => h hij.symm), alookup,
        if_neg (fun hkj => h (hk ▸ hkj).symm), ih]
    · rw [if_neg hk]
      simp only [alookup]
      by_cases hkj : k = j
      · rw [if_pos hkj, if_pos hkj]
      · rw [if_neg hkj, if_neg hkj, ih]

theorem olookup_append_none {β : Type} {l : List (Addr × β)} {a : Addr}
    {b : β} (h : olookup a l = none) :
    olookup a (l ++ [(a, b)]) = some b := by
  induction l with
  | nil => simp [olookup]
  | cons e rest ih =>
    obtain ⟨k, v⟩ := e
    rw [olookup] at h
    by_cases hk : k = a
    · simp [hk] at h
    · simp [hk] at h
      simpa [olookup, hk] using ih h

theorem olookup_none_of_not_mem {β : Type} {l : List (Addr × β)} {a : Addr}
    (h : a ∉ l.map Prod.fst) : olookup a l = none := by
  induction l with
  | nil => rfl
  | cons e rest ih =>
    obtain ⟨k, v⟩ := e
    simp only [List.map_cons, List.mem_cons] at h
    push_neg at h
    rw [olookup, if_neg (show ¬k = a from fun hk => h.1 hk.symm)]
    exact ih h.2

theorem olookup_eraseP_self {β : Type} {l : List (Addr × β)} {a : Addr}
    (h : (l.map Prod.fst).Nodup) :
    olookup a (l.eraseP (fun e => e.1 == a)) = none := by
  induction l with
  | nil => rfl
  | cons e rest ih =>
    obtain ⟨k, v⟩ := e
    simp only [List.map_cons, List.nodup_cons] at h
    by_cases hk : k = a
    · subst hk
      rw [List.eraseP_cons, show (((k, v).1 == k) : Bool) = true by simp]
      simp only [cond_true]
      exact olookup_none_of_not_mem h.1
    · rw [List.eraseP_cons, show (((k, v).1 == a) : Bool) = false by simp [hk]]
      simp only [cond_false, olookup, if_neg hk]
      exact ih h.2

theorem findDeriv_none {F : Nat → Option Nat} {ds : List Nat}
    (h : ∀ d ∈ ds, F d = none) : findDeriv F ds = none := by
  induction ds with
  | nil => rfl
  | cons d rest ih =>
    rw [findDeriv, h d (List.mem_cons_self _ _)]
    exact ih fun x hx => h x (List.mem_cons_of_mem _ hx)

theorem find_object_none {w : World} {addr : Addr}
    (hw : ∀ e ∈ w, olookup addr e.2.objects_ = none) :
    ∀ fuel (ci : class_info), olookup addr ci.objects_ = none →
    class_info.find_object w fuel ci addr = none := by
  intro fuel
  induction fuel with
  | zero => intro ci _; rfl
  | succ n ih =>
    intro ci hci
    rw [class_info.find_object, hci]
    apply findDeriv_none
    intro d _
    cases hd : alookup d w with
    | none => rfl
    | some di =>
      exact ih di (hw (d, di) (alookup_mem hd))

/-! ## Helper lemmas about the cast table -/

theorem directBase_some {w : World} {bs : List base_class_info}
    {t : type_index} {b : base_class_info} (h : directBase w bs t = some b) :
    b ∈ bs ∧ ∃ bi, alookup b.info w = some bi ∧ bi.type_ = t := by
  have hmem := List.mem_of_find?_eq_some h
  have hp := List.find?_some h
  refine ⟨hmem, ?_⟩
  cases hbi : alookup b.info w with
  | none => rw [hbi] at hp; simp at hp
  | some bi =>
    rw [hbi] at hp
    exact ⟨bi, rfl, by simpa using hp⟩

theorem castWalk_true {F : class_info → Addr → type_index → Bool × Addr}
    {w : World} {bs : List base_class_info} {ptr r : Addr} {t : type_index}
    (h : castWalk F w bs ptr t = (true, r)) :
    ∃ b ∈ bs, ∃ bi, alookup b.info w = some bi ∧
      F bi (b.cast ptr) t = (true, r) := by
  induction bs with
  | nil => simp [castWalk] at h
  | cons b rest ih =>
    rw [castWalk] at h
    cases hbi : alookup b.info w with
    | none =>
      simp only [hbi] at h
      obtain ⟨b', hb', rest'⟩ := ih h
      exact ⟨b', List.mem_cons_of_mem _ hb', rest'⟩
    | some bi =>
      simp only [hbi] at h
      cases hF : F bi (b.cast ptr) t with
      | mk ok p =>
        simp only [hF] at h
        cases ok
        · obtain ⟨b', hb', rest'⟩ := ih h
          exact ⟨b', List.mem_cons_of_mem _ hb', rest'⟩
        · obtain ⟨-, hp⟩ := Prod.mk.injEq .. ▸ h
          exact ⟨b, List.mem_cons_self _ _, bi, hbi, by rw [hF, hp]⟩

theorem castWalk_of_exists {F : class_info → Addr → type_index → Bool × Addr}
    {w : World} {bs : List base_class_info} {ptr : Addr} {t : type_index}
    (h : ∃ b ∈ bs, ∃ bi, alookup b.info w = some bi ∧
      (F bi (b.cast ptr) t).1 = true) :
    (castWalk F w bs ptr t).1 = true := by
  induction bs with
  | nil => simp at h
  | cons b rest ih =>
    obtain ⟨b', hb', bi', hbi', hF'⟩ := h
    rw [castWalk]
    cases hbi : alookup b.info w with
    | none =>
      simp only [hbi]
      rcases List.mem_cons.mp hb' with rfl | hmem
      · rw [hbi'] at hbi; cases hbi
      · exact ih ⟨b', hmem, bi', hbi', hF'⟩
    | some bi =>
      simp only [hbi]
      cases hF : F bi (b.cast ptr) t with
      | mk ok p =>
        cases ok
        · simp only [hF]
          rcases List.mem_cons.mp hb' with rfl | hmem
          · rw [hbi] at hbi'
            have : bi' = bi := (Option.some.inj hbi').symm
            subst this
            rw [hF] at hF'
            simp at hF'
          · exact ih ⟨b', hmem, bi', hbi', hF'⟩
        · simp only [hF]

theorem castWalk_congr {F G : class_info → Addr → type_index → Bool × Addr}
    {w : World} {bs : List base_class_info} {ptr : Addr} {t : type_index}
    (h : ∀ b ∈ bs, ∀ bi, alookup b.info w = some bi →
      F bi (b.cast ptr) t = G bi (b.cast ptr) t) :
    castWalk F w bs ptr t = castWalk G w bs ptr t := by
  induction bs with
  | nil => rfl
  | cons b rest ih =>
    rw [castWalk, castWalk]
    cases hbi : alookup b.info w with
    | none =>
      simp only [hbi]
      exact ih fun x hx => h x (List.mem_cons_of_mem _ hx)
    | some bi =>
      simp only [hbi, h b (List.mem_cons_self _ _) bi hbi]
      cases hG : G bi (b.cast ptr) t with
      | mk ok p =>
        cases ok
        · simp only [hG]
          exact ih fun x hx => h x (List.mem_cons_of_mem _ hx)
        · simp only [hG]

theorem castWalk_false_snd {F : class_info → Addr → type_index → Bool × Addr}
    {w : World} {bs : List base_class_info} {ptr : Addr} {t : type_index}
    (h : (castWalk F w bs ptr t).1 = false) :
    (castWalk F w bs ptr t).2 = ptr := by
  induction bs with
  | nil => rfl
  | cons b rest ih =>
    rw [castWalk] at h ⊢
    cases hbi : alookup b.info w with
    | none =>
      simp only [hbi] at h ⊢
      exact ih h
    | some bi =>
      simp only [hbi] at h ⊢
      cases hF : F bi (b.cast ptr) t with
      | mk ok p =>
        simp only [hF] at h ⊢
        cases ok
        · exact ih h
        · simp at h

theorem cast_false_snd {w : World} {fuel : Nat} {ci : class_info} {ptr : Addr}
    {t : type_index} (h : (class_info.cast w fuel ci ptr t).1 = false) :
    (class_info.cast w fuel ci ptr t).2 = ptr := by
  cases fuel with
  | zero => rfl
  | succ n =>
    rw [class_info.cast] at h ⊢
    by_cases ht : ci.type_ = t
    · rw [if_pos ht] at h; simp at h
    · rw [if_neg ht] at h ⊢
      cases hdb : directBase w ci.bases_ t with
      | some b => rw [hdb] at h; simp at h
      | none =>
        rw [hdb] at h
        exact castWalk_false_snd h

theorem cast_sound {w : World} :
    ∀ (fuel : Nat) {id : Nat} {ci : class_info} {ptr : Addr}
      {t : type_index} {r : Addr},
      alookup id w = some ci →
      class_info.cast w fuel ci ptr t = (true, r) →
      PathTo w id t ptr r := by
  intro fuel
  induction fuel with
  | zero =>
    intro id ci ptr t r _ h
    simp [class_info.cast] at h
  | succ n ih =>
    intro id ci ptr t r hid h
    rw [class_info.cast] at h
    by_cases ht : ci.type_ = t
    · rw [if_pos ht] at h
      have hr : ptr = r := congrArg Prod.snd h
      subst hr
      exact ht ▸ PathTo.refl hid
    · rw [if_neg ht] at h
      cases hdb : directBase w ci.bases_ t with
      | some b =>
        rw [hdb] at h
        have hr : b.cast ptr = r := congrArg Prod.snd h
        obtain ⟨hmem, bi, hbi, hbt⟩ := directBase_some hdb
        exact PathTo.step hid hmem (hr ▸ hbt ▸ PathTo.refl hbi)
      | none =>
        rw [hdb] at h
        obtain ⟨b, hmem, bi, hbi, hF⟩ := castWalk_true h
        exact PathTo.step hid hmem (ih hbi hF)

theorem PathTo.reach {w : World} {id : Nat} {t : type_index} {p r : Addr}
    (h : PathTo w id t p r) : Reach w id t := by
  induction h with
  | refl hid => exact Reach.self hid
  | step hid hmem _ ih => exact Reach.step hid hmem ih

theorem reach_lookup {w : World} {id : Nat} {t : type_index}
    (h : Reach w id t) : ∃ ci, alookup id w = some ci := by
  cases h with
  | self h => exact ⟨_, h⟩
  | step h _ _ => exact ⟨_, h⟩

theorem cast_complete {w : World} {rank : Nat → Nat} (hr : RankOK w rank) :
    ∀ {id : Nat} {t : type_index}, Reach w id t →
    ∀ {ci : class_info}, alookup id w = some ci →
    ∀ (ptr : Addr) (fuel : Nat), rank id < fuel →
    (class_info.cast w fuel ci ptr t).1 = true := by
  intro id t h
  induction h with
  | @self id ci0 hlk =>
    intro ci hid ptr fuel hf
    have hc : ci0 = ci := by rw [hlk] at hid; exact Option.some.inj hid
    subst hc
    obtain ⟨n, rfl⟩ : ∃ n, fuel = n + 1 := ⟨fuel - 1, by omega⟩
    rw [class_info.cast, if_pos rfl]
  | @step id ci0 b t hlk hmem hreach ih =>
    intro ci hid ptr fuel hf
    have hc : ci0 = ci := by rw [hlk] at hid; exact Option.some.inj hid
    subst hc
    obtain ⟨n, rfl⟩ : ∃ n, fuel = n + 1 := ⟨fuel - 1, by omega⟩
    rw [class_info.cast]
    by_cases ht : ci0.type_ = t
    · rw [if_pos ht]
    · rw [if_neg ht]
      cases hdb : directBase w ci0.bases_ t with
      | some b' => rfl
      | none =>
        show (castWalk (class_info.cast w n) w ci0.bases_ ptr t).1 = true
        apply castWalk_of_exists
        obtain ⟨bi, hbi⟩ := reach_lookup hreach
        refine ⟨b, hmem, bi, hbi, ?_⟩
        have h1 : rank b.info < rank id := hr (id, ci0) (alookup_mem hid) b hmem
        exact ih hbi (b.cast ptr) n (by omega)

theorem cast_stable {w : World} {rank : Nat → Nat} (hr : RankOK w rank) :
    ∀ (n : Nat) {id : Nat} {ci : class_info},
    alookup id w = some ci → rank id < n →
    ∀ (ptr : Addr) (t : type_index) {f₁ f₂ : Nat},
    rank id < f₁ → rank id < f₂ →
    class_info.cast w f₁ ci ptr t = class_info.cast w f₂ ci ptr t := by
  intro n
  induction n with
  | zero => intro id ci _ h; omega
  | succ m ih =>
    intro id ci hid hn ptr t f₁ f₂ h₁ h₂
    obtain ⟨g₁, rfl⟩ : ∃ g, f₁ = g + 1 := ⟨f₁ - 1, by omega⟩
    obtain ⟨g₂, rfl⟩ : ∃ g, f₂ = g + 1 := ⟨f₂ - 1, by omega⟩
    rw [class_info.cast, class_info.cast]
    by_cases ht : ci.type_ = t
    · rw [if_pos ht, if_pos ht]
    · rw [if_neg ht, if_neg ht]
      cases hdb : directBase w ci.bases_ t with
      | some b => rfl
      | none =>
        show castWalk (class_info.cast w g₁) w ci.bases_ ptr t =
          castWalk (class_info.cast w g₂) w ci.bases_ ptr t
        apply castWalk_congr
        intro b hmem bi hbi
        have hb : rank b.info < rank id := hr (id, ci) (alookup_mem hid) b hmem
        exact ih hbi (by omega) (b.cast ptr) t (by omega) (by omega)

theorem eq_true_pair {p : Bool × Addr} (h : p.1 = true) : p = (true, p.2) := by
  rw [← h]

/-! ## Concrete three-level hierarchy used by the witnesses: node 0 is
class A (type index 0), node 1 is B deriving from A with adjustment
`+2`, node 2 is C deriving from B with adjustment `+1`. -/

def exA : class_info := ⟨0, [], [1], []⟩
def exB : class_info := ⟨1, [⟨0, fun p => p + 2⟩], [2], []⟩
def exC : class_info := ⟨2, [⟨1, fun p => p + 1⟩], [], [(42, 7)]⟩
def exW : World := [(0, exA), (1, exB), (2, exC)]

/-! ## Claim theorems -/

/-- C1: for a cast table populated via `add_base` (an acyclic world),
`cast(address, requestedType)` succeeds exactly when the requested type
index equals this type's or is reachable through the chain of
`base_class_info` links; on success the returned address is the
composition of the per-edge adjustment functions applied once per hop
(`PathTo`); the address is unchanged when the requested type is this
type's own; and a direct base matching in registration order is used
before the recursive walk. -/
theorem cast_reachability_spec (w : World) (rank : Nat → Nat) (id : Nat)
    (ci : class_info) (ptr : Addr) (t : type_index) (fuel : Nat)
    (hr : RankOK w rank) (hid : alookup id w = some ci)
    (hf : rank id < fuel) :
    ((class_info.cast w fuel ci ptr t).1 = true ↔ Reach w id t)
    ∧ ((class_info.cast w fuel ci ptr t).1 = true →
        PathTo w id t ptr (class_info.cast w fuel ci ptr t).2)
    ∧ (t = ci.type_ → class_info.cast w fuel ci ptr t = (true, ptr))
    ∧ (∀ b, ¬t = ci.type_ → directBase w ci.bases_ t = some b →
        class_info.cast w fuel ci ptr t = (true, b.cast ptr)) := by
  obtain ⟨n, rfl⟩ : ∃ n, fuel = n + 1 := ⟨fuel - 1, by omega⟩
  refine ⟨⟨?_, ?_⟩, ?_, ?_, ?_⟩
  · intro h
    exact (cast_sound (n + 1) hid (eq_true_pair h)).reach
  · intro hreach
    exact cast_complete hr hreach hid ptr (n + 1) hf
  · intro h
    exact cast_sound (n + 1) hid (eq_true_pair h)
  · intro ht
    rw [class_info.cast, if_pos ht.symm]
  · intro b ht hdb
    rw [class_info.cast, if_neg (fun hh => ht hh.symm), hdb]

/-- C1 witness: in the concrete A ← B ← C hierarchy, casting a C
address to A's type index succeeds, following the unique two-hop path. -/
theorem cast_reachability_spec_witness :
    ((class_info.cast exW 3 exC 5 0).1 = true ↔ Reach exW 2 0)
    ∧ ((class_info.cast exW 3 exC 5 0).1 = true →
        PathTo exW 2 0 5 (class_info.cast exW 3 exC 5 0).2)
    ∧ (0 = exC.type_ → class_info.cast exW 3 exC 5 0 = (true, 5))
    ∧ (∀ b, ¬0 = exC.type_ → directBase exW exC.bases_ 0 = some b →
        class_info.cast exW 3 exC 5 0 = (true, b.cast 5)) :=
  cast_reachability_spec exW (fun i => i) 2 exC 5 0 3
    (by unfold RankOK; decide) rfl (by decide)

/-- C8: on an acyclic hierarchy (certified by a rank function, as
produced by valid single or multiple inheritance), the recursive cast
has a unique, fuel-independent result — i.e. the recursion terminates —
and when the requested type is reachable that result is success with
the deterministic per-edge path composition. -/
theorem cast_terminates_unique (w : World) (rank : Nat → Nat) (id : Nat)
    (ci : class_info) (ptr : Addr) (t : type_index)
    (hr : RankOK w rank) (hid : alookup id w = some ci) :
    ∃ r : Bool × Addr,
      (∀ fuel, rank id < fuel → class_info.cast w fuel ci ptr t = r)
      ∧ (Reach w id t → r.1 = true ∧ PathTo w id t ptr r.2) := by
  refine ⟨class_info.cast w (rank id + 1) ci ptr t, ?_, ?_⟩
  · intro fuel hf
    exact cast_stable hr (rank id + 1) hid (by omega) ptr t hf (by omega)
  · intro hreach
    have h1 : (class_info.cast w (rank id + 1) ci ptr t).1 = true :=
      cast_complete hr hreach hid ptr _ (by omega)
    exact ⟨h1, cast_sound (rank id + 1) hid (eq_true_pair h1)⟩

/-- C8 witness: the concrete three-level hierarchy instantiates the
termination statement. -/
theorem cast_terminates_unique_witness :
    ∃ r : Bool × Addr,
      (∀ fuel, 2 < fuel → class_info.cast exW fuel exC 5 0 = r)
      ∧ (Reach exW 2 0 → r.1 = true ∧ PathTo exW 2 0 5 r.2) :=
  cast_terminates_unique exW (fun i => i) 2 exC 5 0
    (by unfold RankOK; decide) rfl

/-- C9: when `cast` fails, the in/out pointer argument is returned
exactly as it was passed in — the pointer is rewritten only on the
success paths. -/
theorem cast_failure_preserves_ptr (w : World) (fuel : Nat)
    (ci : class_info) (ptr : Addr) (t : type_index)
    (h : (class_info.cast w fuel ci ptr t).1 = false) :
    (class_info.cast w fuel ci ptr t).2 = ptr :=
  cast_false_snd h

/-- C9 witness: a failing cast (unknown type index 99) leaves the
address 5 unchanged. -/
theorem cast_failure_preserves_ptr_witness :
    (class_info.cast exW 1 exA 5 99).1 = false ∧
    (class_info.cast exW 1 exA 5 99).2 = 5 :=
  ⟨by decide, cast_failure_preserves_ptr exW 1 exA 5 99 (by decide)⟩

/-- C4: `add_base` registers the target as a direct base and records
the back-reference in the target's `derivatives_`; if the same target is
already a direct base it fails with the "duplicated base class" error
and leaves the cast table (bases and derivatives of every node) exactly
as it was. -/
theorem add_base_duplicate_safe (w : World) (selfId targetId : Nat)
    (f : Addr → Addr) (ci ti : class_info)
    (hid : alookup selfId w = some ci) (hti : alookup targetId w = some ti)
    (hne : selfId ≠ targetId) :
    (ci.bases_.any (fun b => b.info == targetId) = true →
      class_info.add_base w selfId targetId f
        = (w, some "duplicated base class"))
    ∧ (ci.bases_.any (fun b => b.info == targetId) = false →
      ∃ w₂, class_info.add_base w selfId targetId f = (w₂, none)
        ∧ alookup selfId w₂ =
            some { ci with bases_ := ci.bases_ ++ [⟨targetId, f⟩] }
        ∧ alookup targetId w₂ =
            some { ti with derivatives_ := ti.derivatives_ ++ [selfId] }) := by
  constructor
  · intro hdup
    simp only [class_info.add_base, hid, hdup, if_true]
  · intro hnd
    have h1 : alookup targetId (updateW w selfId
        { ci with bases_ := ci.bases_ ++ [⟨targetId, f⟩] }) = some ti := by
      rw [alookup_updateW_ne (Ne.symm hne)]; exact hti
    refine ⟨updateW (updateW w selfId
        { ci with bases_ := ci.bases_ ++ [⟨targetId, f⟩] }) targetId
        { ti with derivatives_ := ti.derivatives_ ++ [selfId] }, ?_, ?_, ?_⟩
    · simp only [class_info.add_base, hid, hnd, Bool.false_eq_true,
        if_false, h1]
    · rw [alookup_updateW_ne hne]
      exact alookup_updateW_self hid
    · exact alookup_updateW_self h1

/-- C4 witness: in the concrete hierarchy, re-registering node 1 (B) as
a base of node 2 (C) is rejected and the world is untouched. -/
theorem add_base_duplicate_safe_witness :
    (exC.bases_.any (fun b => b.info == 1) = true →
      class_info.add_base exW 2 1 (fun p => p)
        = (exW, some "duplicated base class"))
    ∧ (exC.bases_.any (fun b => b.info == 1) = false →
      ∃ w₂, class_info.add_base exW 2 1 (fun p => p) = (w₂, none)
        ∧ alookup 2 w₂ =
            some { exC with bases_ := exC.bases_ ++ [⟨1, fun p => p⟩] }
        ∧ alookup 1 w₂ =
            some { exB with derivatives_ := exB.derivatives_ ++ [2] }) :=
  add_base_duplicate_safe exW 2 1 (fun p => p) exC exB rfl rfl (by decide)

/-- C7 counterexample defs: registry A (node 0) has derivative B (node
1); the same address 5 is registered in both registries. -/
def cexB : class_info := ⟨1, [], [], [(5, 99)]⟩
def cexA : class_info := ⟨0, [], [1], [(5, 7)]⟩
def cexW : World := [(1, cexB)]

/-- C7 counterexample: removing address 5 from registry A succeeds, yet
a subsequent `find_object` for 5 is non-empty, because derivative B's
registry still holds an entry for that address — so "after a successful
removal find_object returns empty" is false as stated. -/
theorem remove_then_find_cex :
    (class_info.remove_object cexA 5).2 = none
    ∧ class_info.find_object cexW 2 (class_info.remove_object cexA 5).1 5
        ≠ none := by decide

/-- A node id reachable from the registry `ci` through one or more
derivative hops: first into a member of `ci.derivatives_`, then
repeatedly dereferencing a reached id in the world and following its
`derivatives_`.  These are exactly the registries that the recursive
search of `class_info::find_object` can consult besides `ci` itself. -/
inductive DerivedFrom (w : World) (ci : class_info) : Nat → Prop
  | direct {d : Nat} : d ∈ ci.derivatives_ → DerivedFrom w ci d
  | step {d d' : Nat} {di : class_info} :
      DerivedFrom w ci d → alookup d w = some di →
      d' ∈ di.derivatives_ → DerivedFrom w ci d'

theorem DerivedFrom.via {w : World} {ci di : class_info} {d d' : Nat}
    (hd : d ∈ ci.derivatives_) (hdi : alookup d w = some di)
    (h : DerivedFrom w di d') : DerivedFrom w ci d' := by
  induction h with
  | direct h1 => exact DerivedFrom.step (DerivedFrom.direct hd) hdi h1
  | step _ h2 h3 ih => exact DerivedFrom.step ih h2 h3

theorem find_object_none_reach {w : World} {addr : Addr} :
    ∀ (fuel : Nat) (ci : class_info),
    olookup addr ci.objects_ = none →
    (∀ d, DerivedFrom w ci d → ∀ di, alookup d w = some di →
      olookup addr di.objects_ = none) →
    class_info.find_object w fuel ci addr = none := by
  intro fuel
  induction fuel with
  | zero => intro ci _ _; rfl
  | succ n ih =>
    intro ci hci hreach
    rw [class_info.find_object, hci]
    apply findDeriv_none
    intro d hd
    cases hdlk : alookup d w with
    | none => rfl
    | some di =>
      apply ih di (hreach d (DerivedFrom.direct hd) di hdlk)
      intro d' hd' di' hlk'
      exact hreach d' (DerivedFrom.via hd hdlk hd') di' hlk'

/-- C7 (amended): registering a present address and removing an absent
address are signaled as errors with the registry unchanged; and after a
successful removal, `find_object` for that address returns empty
provided the address is not still registered in any registry reachable
through the derivatives chain from the registry removed from. -/
theorem registry_invariants (w : World) (ci : class_info) (addr : Addr)
    (h0 hnew : Nat) (fuel : Nat)
    (hpresent : olookup addr ci.objects_ = some h0)
    (hnodup : (ci.objects_.map Prod.fst).Nodup)
    (hreach : ∀ d, DerivedFrom w (class_info.remove_object ci addr).1 d →
        ∀ di, alookup d w = some di → olookup addr di.objects_ = none) :
    class_info.add_object ci addr hnew = (ci, some "duplicate object")
    ∧ (∀ ci₂ : class_info, olookup addr ci₂.objects_ = none →
        class_info.remove_object ci₂ addr = (ci₂, some "no object"))
    ∧ (class_info.remove_object ci addr).2 = none
    ∧ class_info.find_object w fuel (class_info.remove_object ci addr).1 addr
        = none := by
  refine ⟨?_, ?_, ?_, ?_⟩
  · simp only [class_info.add_object, hpresent]
  · intro ci₂ h2
    simp only [class_info.remove_object, h2]
  · simp only [class_info.remove_object, hpresent]
  · apply find_object_none_reach fuel _ ?_ hreach
    simp only [class_info.remove_object, hpresent]
    exact olookup_eraseP_self hnodup

/-- C7 amended-claim witness world: registry A (node 0, `cexA`) has the
derivative chain 1 then 2, neither holding address 5 after the removal,
while the unrelated registry at node 3 — unreachable from A's
derivatives — still holds address 5.  So the derivative search actually
runs and the amended proviso is exercised non-vacuously. -/
def cexB2 : class_info := ⟨1, [], [2], []⟩
def cexC2 : class_info := ⟨2, [], [], []⟩
def cexU : class_info := ⟨3, [], [], [(5, 55)]⟩
def cexW2 : World := [(1, cexB2), (2, cexC2), (3, cexU)]

theorem cexW2_reach_absent :
    ∀ d, DerivedFrom cexW2 (class_info.remove_object cexA 5).1 d →
      ∀ di, alookup d cexW2 = some di → olookup 5 di.objects_ = none := by
  have hdom : ∀ d, DerivedFrom cexW2 (class_info.remove_object cexA 5).1 d →
      d = 1 ∨ d = 2 := by
    intro d h
    induction h with
    | direct hd =>
      left
      have he : (class_info.remove_object cexA 5).1.derivatives_ = [1] := rfl
      rw [he] at hd
      simpa using hd
    | @step e dres di hprev hlk hd ih =>
      rcases ih with rfl | rfl
      · right
        have hdi : di = cexB2 := by
          simp [cexW2, alookup] at hlk
          exact hlk.symm
        subst hdi
        simpa [cexB2] using hd
      · have hdi : di = cexC2 := by
          simp [cexW2, alookup] at hlk
          exact hlk.symm
        subst hdi
        simp [cexC2] at hd
  intro d hd di hlk
  rcases hdom d hd with rfl | rfl
  · have hdi : di = cexB2 := by
      simp [cexW2, alookup] at hlk
      exact hlk.symm
    subst hdi
    rfl
  · have hdi : di = cexC2 := by
      simp [cexW2, alookup] at hlk
      exact hlk.symm
    subst hdi
    rfl

/-- C7 amended-claim witness: removal of address 5 from registry A
succeeds, the derivative chain 1, 2 is searched and holds no entry for
5, and `find_object` returns empty even though the unreachable registry
at node 3 still holds address 5. -/
theorem registry_invariants_witness :
    class_info.add_object cexA 5 3 = (cexA, some "duplicate object")
    ∧ (∀ ci₂ : class_info, olookup 5 ci₂.objects_ = none →
        class_info.remove_object ci₂ 5 = (ci₂, some "no object"))
    ∧ (class_info.remove_object cexA 5).2 = none
    ∧ class_info.find_object cexW2 3
        (class_info.remove_object cexA 5).1 5 = none :=
  registry_invariants cexW2 cexA 5 7 3 3 rfl (by decide) cexW2_reach_absent

/-- C2: wrapping a fresh native address `N` succeeds and produces a
proxy whose slot 0 holds `N` and slot 1 holds the wrapping descriptor;
`unwrap_object` on that proxy at the exact wrapped type returns `N`
unchanged, and `find_object N` on that type returns the same proxy
(the registered handle id). -/
theorem wrap_roundtrip (w : World) (selfId : Nat) (ci : class_info)
    (N : Addr) (pid : Nat) (fuel : Nat)
    (hid : alookup selfId w = some ci)
    (hfresh : olookup N ci.objects_ = none) :
    (class_singleton.wrap_external_object w selfId N pid).2 = none
    ∧ (class_singleton.wrap_external_object w selfId N pid).1.2.1
        = JSValue.object pid 2 N (some selfId) JSValue.nonObject
    ∧ class_singleton.unwrap_object
        (class_singleton.wrap_external_object w selfId N pid).1.1 (fuel + 1)
        ci.type_
        (class_singleton.wrap_external_object w selfId N pid).1.2.1 = some N
    ∧ ∃ ci₂,
        alookup selfId (class_singleton.wrap_external_object w selfId N pid).1.1
          = some ci₂
        ∧ class_info.find_object
            (class_singleton.wrap_external_object w selfId N pid).1.1
            (fuel + 1) ci₂ N = some pid := by
  have hadd : class_info.add_object ci N pid
      = ({ ci with objects_ := ci.objects_ ++ [(N, pid)] }, none) := by
    simp only [class_info.add_object, hfresh]
  have hw : class_singleton.wrap_external_object w selfId N pid
      = ((updateW w selfId { ci with objects_ := ci.objects_ ++ [(N, pid)] },
          JSValue.object pid 2 N (some selfId) JSValue.nonObject, pid),
         none) := by
    simp only [class_singleton.wrap_external_object, hid, hadd]
  rw [hw]
  have hlk : alookup selfId
      (updateW w selfId { ci with objects_ := ci.objects_ ++ [(N, pid)] })
      = some { ci with objects_ := ci.objects_ ++ [(N, pid)] } :=
    alookup_updateW_self hid
  refine ⟨rfl, rfl, ?_, ?_⟩
  · simp [class_singleton.unwrap_object, hlk, class_info.cast]
  · refine ⟨{ ci with objects_ := ci.objects_ ++ [(N, pid)] }, hlk, ?_⟩
    have hfind : olookup N (ci.objects_ ++ [(N, pid)]) = some pid :=
      olookup_append_none hfresh
    simp only [class_info.find_object, hfind]

/-- C2 witness: wrapping address 42 with descriptor node 0 (type A) and
proxy id 9 in the concrete world. -/
theorem wrap_roundtrip_witness :
    (class_singleton.wrap_external_object exW 0 42 9).2 = none
    ∧ (class_singleton.wrap_external_object exW 0 42 9).1.2.1
        = JSValue.object 9 2 42 (some 0) JSValue.nonObject
    ∧ class_singleton.unwrap_object
        (class_singleton.wrap_external_object exW 0 42 9).1.1 1 exA.type_
        (class_singleton.wrap_external_object exW 0 42 9).1.2.1 = some 42
    ∧ ∃ ci₂,
        alookup 0 (class_singleton.wrap_external_object exW 0 42 9).1.1
          = some ci₂
        ∧ class_info.find_object
            (class_singleton.wrap_external_object exW 0 42 9).1.1
            1 ci₂ 42 = some 9 :=
  wrap_roundtrip exW 0 exA 42 9 0 rfl rfl

/-- C3: `find_object` returns the handle for an exact match in the
registry's own map; otherwise it queries derivatives depth-first, so in
a three-level hierarchy C deriving from B deriving from A, with the
address registered only in
C, the lookup at A returns the same proxy as the lookup at C. -/
theorem find_object_hierarchy (w : World) (addr : Addr) (hnd : Nat)
    (fuel : Nat) (a b c : Nat) (A B C : class_info)
    (hA : alookup a w = some A) (hB : alookup b w = some B)
    (hC : alookup c w = some C)
    (hAder : A.derivatives_ = [b]) (hBder : B.derivatives_ = [c])
    (hAobj : olookup addr A.objects_ = none)
    (hBobj : olookup addr B.objects_ = none)
    (hCobj : olookup addr C.objects_ = some hnd) :
    (∀ ci : class_info, olookup addr ci.objects_ = some hnd →
      class_info.find_object w (fuel + 1) ci addr = some hnd)
    ∧ class_info.find_object w (fuel + 1 + 1 + 1) A addr = some hnd
    ∧ class_info.find_object w (fuel + 1 + 1 + 1) A addr
        = class_info.find_object w (fuel + 1) C addr := by
  have hCfind : ∀ m, class_info.find_object w (m + 1) C addr = some hnd := by
    intro m
    simp only [class_info.find_object, hCobj]
  have hBfind : class_info.find_object w (fuel + 1 + 1) B addr = some hnd := by
    simp only [class_info.find_object, hBobj, hBder, findDeriv, hC, hCobj]
  have hAfind : class_info.find_object w (fuel + 1 + 1 + 1) A addr
      = some hnd := by
    simp only [class_info.find_object, hAobj, hAder, findDeriv, hB, hBobj,
      hBder, hC, hCobj]
  exact ⟨fun ci hcp => by simp only [class_info.find_object, hcp],
    hAfind, by rw [hAfind, hCfind fuel]⟩

/-- C3 witness: address 42 with handle 7 registered only at node 2 (C)
of the concrete hierarchy; lookups at node 0 (A) and node 2 agree. -/
theorem find_object_hierarchy_witness :
    (∀ ci : class_info, olookup 42 ci.objects_ = some 7 →
      class_info.find_object exW (0 + 1) ci 42 = some 7)
    ∧ class_info.find_object exW (0 + 1 + 1 + 1) exA 42 = some 7
    ∧ class_info.find_object exW (0 + 1 + 1 + 1) exA 42
        = class_info.find_object exW (0 + 1) exC 42 :=
  find_object_hierarchy exW 42 7 0 0 1 2 exA exB exC
    rfl rfl rfl rfl rfl rfl rfl rfl

/-- C5: invoking the script-construction callback for a type whose
`ctor_` trampoline is absent throws "create is not allowed", which the
callback's catch block converts into the engine's exception as the
return value — a script-catchable outcome, with no state change (and no
process crash, the callback being a total function). -/
theorem construct_without_ctor_raises (w : World) (selfId : Nat)
    (args : List Int) (proxyId : Nat) :
    js_construct_callback w selfId none args proxyId
      = (w, CallbackOutcome.scriptException "create is not allowed") := rfl

/-- C6 failing run: isolate 1 first references type 10 (assigned index
0) then type 11 (index 1); isolate 2 then references type 11 first and
type 10 second. -/
def s0 : ProcState := ⟨0, [], []⟩

def bugRun : ProcState × singleton_rec :=
  let r1 := singleton_instance s0 1 10
  let r2 := singleton_instance r1.1 1 11
  let r3 := singleton_instance r2.1 2 11
  singleton_instance r3.1 2 10

/-- C6 evaluated at the failing input: in isolate 2 the descriptor for
type 11 (type index 1) is stored at directory position 0, and the
subsequent `instance` call for type 10 (type index 0) returns that same
descriptor — constructed for type 11 — instead of lazily creating one
for type 10. -/
theorem singleton_directory_misindex :
    alookup 2 bugRun.1.isolates = some [⟨11, 1⟩]
    ∧ bugRun.2 = ⟨11, 1⟩
    ∧ ¬bugRun.2.forType = 10 := by decide

/-- C10: the instrumented unwrap computes the same result as
`unwrap_object` while reading the internal fields only of objects whose
internal field count is exactly 2 (every traced read has field count 2);
and the result is `none` (nullptr) exactly when no object in the
prototype chain has 2 fields together with a non-null stored descriptor
castable to the requested type — in particular a non-object value gives
`none` without any field read. -/
theorem unwrap_field_safety (w : World) (fuel : Nat) (t : type_index)
    (v : JSValue) :
    (class_singleton.unwrap_objectR w fuel t v).1
      = class_singleton.unwrap_object w fuel t v
    ∧ (∀ e ∈ (class_singleton.unwrap_objectR w fuel t v).2, e.2 = 2)
    ∧ (class_singleton.unwrap_object w fuel t v).isSome
        = hasCastable w fuel t v := by
  induction v with
  | nonObject =>
    refine ⟨rfl, ?_, rfl⟩
    intro e he
    simp [class_singleton.unwrap_objectR] at he
  | object oid fc s0 s1 proto ih =>
    obtain ⟨ih1, ih2, ih3⟩ := ih
    by_cases hfc : fc = 2
    · subst hfc
      cases s1 with
      | none =>
        refine ⟨?_, ?_, ?_⟩
        · simpa [class_singleton.unwrap_objectR,
            class_singleton.unwrap_object] using ih1
        · intro e he
          simp only [class_singleton.unwrap_objectR, if_pos rfl] at he
          rcases List.mem_cons.mp he with rfl | he
          · rfl
          · exact ih2 e he
        · simpa [class_singleton.unwrap_object, hasCastable] using ih3
      | some infoId =>
        cases hlk : alookup infoId w with
        | none =>
          refine ⟨?_, ?_, ?_⟩
          · simpa [class_singleton.unwrap_objectR,
              class_singleton.unwrap_object, hlk] using ih1
          · intro e he
            simp only [class_singleton.unwrap_objectR, if_pos rfl, hlk] at he
            rcases List.mem_cons.mp he with rfl | he
            · rfl
            · exact ih2 e he
          · simpa [class_singleton.unwrap_object, hasCastable, hlk] using ih3
        | some info =>
          cases hcast : class_info.cast w fuel info s0 t with
          | mk ok p =>
            cases ok
            · refine ⟨?_, ?_, ?_⟩
              · simpa [class_singleton.unwrap_objectR,
                  class_singleton.unwrap_object, hlk, hcast] using ih1
              · intro e he
                simp only [class_singleton.unwrap_objectR, if_pos rfl, hlk,
                  hcast] at he
                rcases List.mem_cons.mp he with rfl | he
                · rfl
                · exact ih2 e he
              · simpa [class_singleton.unwrap_object, hasCastable, hlk,
                  hcast] using ih3
            · refine ⟨?_, ?_, ?_⟩
              · simp [class_singleton.unwrap_objectR,
                  class_singleton.unwrap_object, hlk, hcast]
              · intro e he
                simp only [class_singleton.unwrap_objectR, if_pos rfl, hlk,
                  hcast] at he
                rcases List.mem_cons.mp he with rfl | he
                · rfl
                · simp at he
              · simp [class_singleton.unwrap_object, hasCastable, hlk, hcast]
    · refine ⟨?_, ?_, ?_⟩
      · simpa [class_singleton.unwrap_objectR,
          class_singleton.unwrap_object, hfc] using ih1
      · intro e he
        simp only [class_singleton.unwrap_objectR, if_neg hfc] at he
        exact ih2 e he
      · have hb : (fc == 2) = false := by simp [hfc]
        simpa [class_singleton.unwrap_object, hasCastable, hfc, hb] using ih3

end v8pp
